import Mathlib

/-!
Verification development for the DSL workflow interpreter
(`proj/dsl/dsl_executor.py`).

The embedding models:
* `Val` — the JSON-like values stored in the interpreter context
  (Python scalars, lists, dicts and `range` objects);
* `Ctx` — the mutable variable store `self.dsl_context`, as an
  association list with Python-dict assignment semantics (`dset`);
* `DSLExecutor` — the executor state: the step registry plus an
  evaluation oracle standing for the host-language `eval` used by
  `_resolve_placeholders` / `_resolve_condition` / `_execute_loop`;
* `Step` and the mutually recursive `execute_step` / `execute_steps` /
  `execute_loop` / `loop_iters` / `execute_condition` functions,
  translated clause by clause from `DSLExecutor` in the source;
* `pyEvalStr` — an executable evaluator for the fragment of Python
  expressions exercised by the concrete scenarios of the spec
  (integer literals, names, `len`, `*`, `>`/`<`, list displays).
-/

/-- JSON-like runtime values handled by the interpreter: Python ints,
strings, booleans, `None`, lists, dicts (string keys, insertion order)
and `range(a, b)` objects. -/
inductive Val where
  | int : Int → Val
  | str : String → Val
  | bool : Bool → Val
  | null : Val
  | list : List Val → Val
  | dict : List (String × Val) → Val
  | range : Int → Int → Val

/-- The context `self.dsl_context`: a Python dict from variable names to
values, modelled as an association list in insertion order. -/
abbrev Ctx := List (String × Val)

/-- Python dict assignment `m[k] = v`: overwrite in place when the key
is present (a dict holds each key once, so the first occurrence is the
occurrence), append otherwise. -/
def dset {α : Type} : List (String × α) → String → α → List (String × α)
  | [], k, v => [(k, v)]
  | p :: m, k, v => if p.1 = k then (k, v) :: m else p :: dset m k v

/-- Python dict lookup `m.get(k)`. -/
def dget {α : Type} : List (String × α) → String → Option α
  | [], _ => Option.none
  | p :: m, k => if p.1 = k then some p.2 else dget m k

/-- Sequential dict assignment of every pair of `regs` into `m`; this is
both Python dict merge `\x7b**m, **regs\x7d` and the registration loops of
`_register_core_steps` / `_register_app_steps`. -/
def dsetAll {α : Type} (m : List (String × α)) (regs : List (String × α)) :
    List (String × α) :=
  regs.foldl (fun acc p => dset acc p.1 p.2) m

/-- Python dict merge `\x7b**a, **b\x7d` (as used for
`\x7b**self.dsl_context, **additional_context\x7d`). -/
def dmerge {α : Type} (a b : List (String × α)) : List (String × α) :=
  dsetAll a b

mutual
/-- Python `repr` on the modelled values (used by `str` on containers). -/
def pyRepr : Val → String
  | .int n => toString n
  | .str s => "'" ++ s ++ "'"
  | .bool b => if b then "True" else "False"
  | .null => "None"
  | .list l => "[" ++ String.intercalate ", " (pyReprList l) ++ "]"
  | .dict l => "\x7b" ++ String.intercalate ", " (pyReprPairs l) ++ "\x7d"
  | .range a b => "range(" ++ toString a ++ ", " ++ toString b ++ ")"

/-- `repr` of each element of a list value. -/
def pyReprList : List Val → List String
  | [] => []
  | v :: r => pyRepr v :: pyReprList r

/-- `repr` of each key/value pair of a dict value. -/
def pyReprPairs : List (String × Val) → List String
  | [] => []
  | p :: r => ("'" ++ p.1 ++ "': " ++ pyRepr p.2) :: pyReprPairs r
end

/-- Python `str(value)` as used at line 344 (`return str(value)`):
identical to `repr` except on strings, which print without quotes. -/
def pyStr : Val → String
  | .str s => s
  | v => pyRepr v

/-- Python truthiness `bool(result)` (line 396). -/
def pyTruthy : Val → Bool
  | .int n => n != 0
  | .str s => !s.isEmpty
  | .bool b => b
  | .null => false
  | .list l => !l.isEmpty
  | .dict l => !l.isEmpty
  | .range a b => a < b

/-- Exceptions raised by host-language expression evaluation; the
executor distinguishes `KeyError` from every other exception
(lines 345-356 and 397-407). -/
inductive PErr where
  | keyError : PErr
  | exn : PErr

/-- One registry value: the bound callable plus the `source` tag
(`"core"` or `"app"`), as stored at lines 213 and 263. A callable takes
the resolved keyword arguments and may raise (`Except.error`). -/
structure RegEntry where
  fn : List (String × Val) → Except String Val
  source : String

/-- The executor state: the step registry built by `_register_steps`,
and the host-language evaluation oracle standing for Python `eval`.
The `Bool` flag of `peval` records which globals dict the source passes:
`true` for `safe_globals` (placeholders, conditions; lines 342 and 394),
`false` for the empty globals of the loop-source `eval` (line 47). -/
structure DSLExecutor where
  step_registry : List (String × RegEntry)
  peval : Bool → String → Ctx → Except PErr Val

/-- The regex-driven scan of `re.sub(r"\\\x7b([^\\\x7d]+)\\\x7d", resolve_match, text)`
(line 360): a left-to-right pass replacing every non-empty brace-delimited
span by `f span`; an empty span `\x7b\x7d` and an unterminated `\x7b` are left as
literal text. The second argument is `Option.none` outside a span and
`some acc` (collected characters, reversed) inside one. -/
def scanSpans (f : String → String) : List Char → Option (List Char) → List Char
  | [], Option.none => []
  | [], some acc => '\x7b' :: acc.reverse
  | c :: rest, Option.none =>
    if c = '\x7b' then scanSpans f rest (some [])
    else c :: scanSpans f rest Option.none
  | c :: rest, some acc =>
    if c = '\x7d' then
      match acc with
      | [] => '\x7b' :: '\x7d' :: scanSpans f rest Option.none
      | _ => (f (String.mk acc.reverse)).toList ++ scanSpans f rest Option.none
    else scanSpans f rest (some (c :: acc))

/-- Whether the pattern `\\\x7b([^\\\x7d]+)\\\x7d` matches anywhere in the text:
the state mirrors `scanSpans` (`some b` = inside a span whose collected
part is non-empty iff `b`). -/
def hasSpanAux : List Char → Option Bool → Bool
  | [], _ => false
  | c :: rest, Option.none =>
    if c = '\x7b' then hasSpanAux rest (some false)
    else hasSpanAux rest Option.none
  | c :: rest, some nonempty =>
    if c = '\x7d' then
      if nonempty then true else hasSpanAux rest Option.none
    else hasSpanAux rest (some true)

/-- Whether the string contains a `\x7b...\x7d` placeholder span. -/
def hasSpan (s : String) : Bool := hasSpanAux s.toList Option.none

/-- `resolve_match` (lines 335-356): evaluate the expression inside one
span with `safe_globals` and the given context; stringify the value on
success, and produce the inline error tokens on `KeyError` or any other
exception. -/
def resolveMatch (ex : DSLExecutor) (context : Ctx) (expression : String) :
    String :=
  match ex.peval true expression context with
  | Except.ok v => pyStr v
  | Except.error PErr.keyError => "<Unresolved " ++ expression ++ ">"
  | Except.error PErr.exn => "<Error resolving " ++ expression ++ ">"

/-- `_resolve_placeholders(text, context)` (lines 307-368): substitute
every placeholder span of `text` via `resolveMatch`. -/
def DSLExecutor.resolve_placeholders (ex : DSLExecutor) (text : String)
    (context : Ctx) : String :=
  String.mk (scanSpans (resolveMatch ex context) text.toList Option.none)

/-- Python single-character substring test `c in s`. -/
def strHas (s : String) (c : Char) : Bool := s.toList.contains c

/-- Python `int(s)` on a plain digit string (the only shape the
scenarios feed it); anything else raises `ValueError` (`Option.none`). -/
def parseIntLit (s : String) : Option Int :=
  match s.toList with
  | [] => Option.none
  | l =>
    if l.all Char.isDigit then
      some (Int.ofNat (l.foldl (fun a c => a * 10 + (c.toNat - 48)) 0))
    else Option.none

/-- An argument value as it appears in the plan document before
resolution: a string (possibly holding placeholders), a non-string
scalar, a list or a mapping (`_resolve_arguments`, lines 274-305). -/
inductive Arg where
  | str : String → Arg
  | atom : Val → Arg
  | list : List Arg → Arg
  | dict : List (String × Arg) → Arg

mutual
/-- The inner `resolve(value)` closure of `_resolve_arguments`
(lines 289-298): strings containing both a `\x7b` and a `\x7d` go through
placeholder resolution, other strings and scalars pass through, lists
and mappings are resolved recursively. -/
def resolveValue (ex : DSLExecutor) (context : Ctx) : Arg → Val
  | .str s =>
    if strHas s '\x7b' && strHas s '\x7d' then
      .str (ex.resolve_placeholders s context)
    else .str s
  | .atom v => v
  | .list l => .list (resolveValueList ex context l)
  | .dict l => .dict (resolveValuePairs ex context l)

/-- `resolve` mapped over a list argument. -/
def resolveValueList (ex : DSLExecutor) (context : Ctx) : List Arg → List Val
  | [] => []
  | a :: r => resolveValue ex context a :: resolveValueList ex context r

/-- `resolve` mapped over the values of a mapping argument. -/
def resolveValuePairs (ex : DSLExecutor) (context : Ctx) :
    List (String × Arg) → List (String × Val)
  | [] => []
  | p :: r => (p.1, resolveValue ex context p.2) :: resolveValuePairs ex context r
end

/-- `_resolve_arguments(args, additional_context)` for a mapping `args`
(lines 286-305): merge the shared context with the additional context,
then resolve every value. -/
def DSLExecutor.resolve_arguments (ex : DSLExecutor)
    (args : List (String × Arg)) (ctx : Ctx) (add : Option Ctx) :
    List (String × Val) :=
  resolveValuePairs ex (dmerge ctx (add.getD [])) args

/-- `_resolve_arguments` for a string `args` (lines 300-302), the path
taken for `condition` strings: placeholder resolution against the merged
context, with no brace pre-check. -/
def DSLExecutor.resolve_arguments_str (ex : DSLExecutor) (s : String)
    (ctx : Ctx) (add : Option Ctx) : String :=
  ex.resolve_placeholders s (dmerge ctx (add.getD []))

/-- `_resolve_condition(condition, context)` (lines 370-407): evaluate
the whole condition string with `safe_globals`; coerce the result to a
boolean; any evaluation exception yields `false`. -/
def DSLExecutor.resolve_condition (ex : DSLExecutor) (condition : String)
    (context : Ctx) : Bool :=
  match ex.peval true condition context with
  | Except.ok v => pyTruthy v
  | Except.error _ => false

/-- Whether a value is admissible as a loop source:
`isinstance(resolved_iterable, (list, range))` (line 49). -/
def isSeq : Val → Bool
  | .list _ => true
  | .range _ _ => true
  | _ => false

/-- The elements of `range(a, b)` as values. -/
def rangeList (a b : Int) : List Val :=
  (List.range (b - a).toNat).map (fun i => Val.int (a + i))

/-- The element list of a sequence value. -/
def seqElems : Val → Option (List Val)
  | .list l => some l
  | .range a b => some (rangeList a b)
  | _ => Option.none

/-- Lines 43-53 of `_execute_loop`: resolve placeholders in the `over`
string against the shared context alone, evaluate it with empty globals,
and require a list or range; `Option.none` covers every failure
(evaluation exception or non-sequence result). -/
def DSLExecutor.loopItems (ex : DSLExecutor) (loop_over : String)
    (ctx : Ctx) : Option (List Val) :=
  match ex.peval false (ex.resolve_placeholders loop_over ctx) ctx with
  | Except.ok v => seqElems v
  | Except.error _ => Option.none

/-- One step of a plan. Shape discrimination follows `_execute_step`
(lines 109-130): a truthy `loop` key makes a Loop, else a truthy
`condition` key makes a Condition, else the step is an Action
`(name, function, arguments, output_var)`. `Option.none` for
`output_var` models an absent or falsy value, matching the guard
`if output_var:` at line 160, which treats `None` and `""` alike. -/
inductive Step where
  | action : String → String → List (String × Arg) → Option String → Step
  | cond : String → List Step → Step
  | loop : String → String → List Step → Step

/-- Observable events of one execution, standing for the log stream:
`invoke f` records the dispatch of an Action step naming function `f`
(the line 137 record), `err m` records a `logging.error` call. -/
inductive Ev where
  | invoke : String → Ev
  | err : String → Ev

/-- The Action branch of `_execute_step` (lines 132-164): look the
function up in the registry (a miss is a logged no-op), resolve the
arguments, call the function (an exception is a logged no-op), and on
success store the result under a present `output_var`. -/
def executeAction (ex : DSLExecutor) (f : String)
    (args : List (String × Arg)) (out : Option String) (ctx : Ctx)
    (add : Option Ctx) : Ctx × List Ev :=
  match dget ex.step_registry f with
  | Option.none => (ctx, [Ev.invoke f, Ev.err ("Function " ++ f ++ " not implemented.")])
  | some e =>
    match e.fn (ex.resolve_arguments args ctx add) with
    | Except.error _ =>
      (ctx, [Ev.invoke f, Ev.err ("Error executing function " ++ f)])
    | Except.ok r =>
      match out with
      | some o => (dset ctx o r, [Ev.invoke f])
      | Option.none => (ctx, [Ev.invoke f])

mutual
/-- `_execute_step(step, additional_context)` (lines 93-164). The Loop
branch (lines 110-116) drops `additional_context` and delegates to
`_execute_loop`; the Condition branch (lines 119-130) first resolves
placeholders in the condition string against the merged context, then
delegates to `_execute_condition`; otherwise the step is an Action. -/
def execute_step (ex : DSLExecutor) (s : Step) (ctx : Ctx)
    (add : Option Ctx) : Ctx × List Ev :=
  match s with
  | .loop v over body => execute_loop ex v over body ctx
  | .cond c body =>
    execute_condition ex (ex.resolve_arguments_str c ctx add) body ctx add
  | .action _ f args out => executeAction ex f args out ctx add
termination_by (sizeOf s, 3, 0)


/-- `_execute_loop(loop_variable, loop_over, steps)` (lines 30-65):
resolve and evaluate the loop source; iterate on success, and on any
failure log and skip the whole loop. -/
def execute_loop (ex : DSLExecutor) (v over : String) (body : List Step)
    (ctx : Ctx) : Ctx × List Ev :=
  match ex.loopItems over ctx with
  | some items => loop_iters ex v items body ctx
  | Option.none =>
    (ctx, [Ev.err ("Loop variable " ++ v ++ " cannot iterate over unresolved or invalid value: " ++ ex.resolve_placeholders over ctx)])
termination_by (sizeOf body, 2, 0)


/-- The iteration loop of `_execute_loop` (lines 54-61): for each item,
build `loop_context = \x7b**self.dsl_context, loop_variable: item\x7d` from the
current shared context and run the nested steps with it as the
additional (read) context, threading the shared context through. -/
def loop_iters (ex : DSLExecutor) (v : String) (items : List Val)
    (body : List Step) (ctx : Ctx) : Ctx × List Ev :=
  match items with
  | [] => (ctx, [])
  | item :: rest =>
    let p := execute_steps ex body ctx (some (dmerge ctx [(v, item)]))
    let q := loop_iters ex v rest body p.1
    (q.1, p.2 ++ q.2)
termination_by (sizeOf body, 1, sizeOf items)


/-- `_execute_condition(condition, steps, additional_context)`
(lines 67-91): merge the contexts, evaluate the (already interpolated)
condition, and execute the nested steps with the merged context as the
additional context only when it holds. -/
def execute_condition (ex : DSLExecutor) (condition : String)
    (body : List Step) (ctx : Ctx) (add : Option Ctx) : Ctx × List Ev :=
  if ex.resolve_condition condition (dmerge ctx (add.getD [])) then
    execute_steps ex body ctx (some (dmerge ctx (add.getD [])))
  else (ctx, [])
termination_by (sizeOf body, 2, 0)


/-- The step sequencing of `execute_task` and of nested step lists: each
step runs on the context produced by the previous one, with the same
additional context. -/
def execute_steps (ex : DSLExecutor) (l : List Step) (ctx : Ctx)
    (add : Option Ctx) : Ctx × List Ev :=
  match l with
  | [] => (ctx, [])
  | s :: rest =>
    let p := execute_step ex s ctx add
    let q := execute_steps ex rest p.1 add
    (q.1, p.2 ++ q.2)
termination_by (sizeOf l, 0, 0)

end

/-- `execute_task` (lines 24-28): run the top-level steps in order with
no additional context. -/
def execute_task (ex : DSLExecutor) (steps : List Step) (ctx : Ctx) :
    Ctx × List Ev :=
  execute_steps ex steps ctx Option.none

mutual
/-- The `output_var` names an execution of this step may write
(recursively, over nested step lists). -/
def step_writes : Step → List String
  | .action _ _ _ (some o) => [o]
  | .action _ _ _ Option.none => []
  | .cond _ body => steps_writes body
  | .loop _ _ body => steps_writes body

/-- `step_writes` over a step list. -/
def steps_writes : List Step → List String
  | [] => []
  | s :: rest => step_writes s ++ steps_writes rest
end

/-- `_register_steps(app_name)` (lines 166-185): start from an empty
dict, run the core registrations, then the app registrations; each
single registration is the dict assignment of lines 213 / 263. The
introspective enumeration of capability methods is abstracted as the two
given lists of `(qualified_name, entry)` pairs in registration order. -/
def register_steps (core app : List (String × RegEntry)) :
    List (String × RegEntry) :=
  dsetAll (dsetAll [] core) app

/-- Tokens of the embedded Python expression fragment. -/
inductive Tok where
  | int : Nat → Tok
  | ident : String → Tok
  | lbrack : Tok
  | rbrack : Tok
  | lparen : Tok
  | rparen : Tok
  | comma : Tok
  | star : Tok
  | gtT : Tok
  | ltT : Tok

/-- Lex a run of decimal digits. -/
def lexNum : List Char → Nat → Nat × List Char
  | [], acc => (acc, [])
  | c :: rest, acc =>
    if c.isDigit then lexNum rest (acc * 10 + (c.toNat - 48))
    else (acc, c :: rest)

/-- Characters allowed inside a Python identifier. -/
def isIdentChar (c : Char) : Bool := c.isAlpha || c.isDigit || c = '_'

/-- Lex an identifier (the accumulator holds the consumed characters in
reverse). -/
def lexIdent : List Char → List Char → String × List Char
  | [], acc => (String.mk acc.reverse, [])
  | c :: rest, acc =>
    if isIdentChar c then lexIdent rest (c :: acc)
    else (String.mk acc.reverse, c :: rest)

/-- Fueled tokenizer for the expression fragment; any character outside
the fragment is a syntax error (`Option.none`). -/
def tokenizeF : Nat → List Char → Option (List Tok)
  | 0, _ => Option.none
  | _+1, [] => some []
  | f+1, c :: rest =>
    if c = ' ' then tokenizeF f rest
    else if c.isDigit then
      let p := lexNum rest (c.toNat - 48)
      (tokenizeF f p.2).map (fun ts => Tok.int p.1 :: ts)
    else if c.isAlpha || c = '_' then
      let p := lexIdent rest [c]
      (tokenizeF f p.2).map (fun ts => Tok.ident p.1 :: ts)
    else if c = '*' then (tokenizeF f rest).map (fun ts => Tok.star :: ts)
    else if c = '>' then (tokenizeF f rest).map (fun ts => Tok.gtT :: ts)
    else if c = '<' then (tokenizeF f rest).map (fun ts => Tok.ltT :: ts)
    else if c = '[' then (tokenizeF f rest).map (fun ts => Tok.lbrack :: ts)
    else if c = ']' then (tokenizeF f rest).map (fun ts => Tok.rbrack :: ts)
    else if c = '(' then (tokenizeF f rest).map (fun ts => Tok.lparen :: ts)
    else if c = ')' then (tokenizeF f rest).map (fun ts => Tok.rparen :: ts)
    else if c = ',' then (tokenizeF f rest).map (fun ts => Tok.comma :: ts)
    else Option.none

/-- Abstract syntax of the expression fragment: integer literals, names,
`len(e)`, `e * e`, comparisons (`true` = `>`, `false` = `<`) and list
displays. -/
inductive PExpr where
  | lit : Int → PExpr
  | var : String → PExpr
  | lenE : PExpr → PExpr
  | mul : PExpr → PExpr → PExpr
  | cmp : Bool → PExpr → PExpr → PExpr
  | listE : List PExpr → PExpr

mutual
/-- Comparison level: a term optionally followed by `>` or `<` and a
second term. -/
def parseCmp : Nat → List Tok → Option (PExpr × List Tok)
  | 0, _ => Option.none
  | f+1, toks =>
    match parseTerm f toks with
    | Option.none => Option.none
    | some (e, rest) =>
      match rest with
      | Tok.gtT :: rest' =>
        match parseTerm f rest' with
        | some (e2, rest'') => some (.cmp true e e2, rest'')
        | Option.none => Option.none
      | Tok.ltT :: rest' =>
        match parseTerm f rest' with
        | some (e2, rest'') => some (.cmp false e e2, rest'')
        | Option.none => Option.none
      | _ => some (e, rest)

/-- Multiplication level: an atom followed by zero or more `* atom`. -/
def parseTerm : Nat → List Tok → Option (PExpr × List Tok)
  | 0, _ => Option.none
  | f+1, toks =>
    match parseAtom f toks with
    | Option.none => Option.none
    | some (e, rest) => parseTermRest f e rest

/-- The `* atom` continuation of `parseTerm`, left associated. -/
def parseTermRest : Nat → PExpr → List Tok → Option (PExpr × List Tok)
  | 0, _, _ => Option.none
  | f+1, e, Tok.star :: rest =>
    (match parseAtom f rest with
     | some (e2, rest') => parseTermRest f (.mul e e2) rest'
     | Option.none => Option.none)
  | _+1, e, rest => some (e, rest)

/-- Atom level: literal, name, `len(...)`, parenthesised expression or
list display. The name `len` is special-cased as the builtin when
applied; the concrete scenarios never bind a context variable `len`. -/
def parseAtom : Nat → List Tok → Option (PExpr × List Tok)
  | 0, _ => Option.none
  | f+1, toks =>
    match toks with
    | Tok.int n :: rest => some (.lit (Int.ofNat n), rest)
    | Tok.ident i :: rest =>
      if i = "len" then
        match rest with
        | Tok.lparen :: rest' =>
          (match parseCmp f rest' with
           | some (e, Tok.rparen :: rest'') => some (.lenE e, rest'')
           | _ => Option.none)
        | _ => some (.var i, rest)
      else some (.var i, rest)
    | Tok.lparen :: rest =>
      (match parseCmp f rest with
       | some (e, Tok.rparen :: rest') => some (e, rest')
       | _ => Option.none)
    | Tok.lbrack :: Tok.rbrack :: rest => some (.listE [], rest)
    | Tok.lbrack :: rest =>
      (match parseElems f rest with
       | some (es, Tok.rbrack :: rest') => some (.listE es, rest')
       | _ => Option.none)
    | _ => Option.none

/-- Comma-separated expression list (list display elements). -/
def parseElems : Nat → List Tok → Option (List PExpr × List Tok)
  | 0, _ => Option.none
  | f+1, toks =>
    match parseCmp f toks with
    | Option.none => Option.none
    | some (e, Tok.comma :: rest) =>
      (match parseElems f rest with
       | some (es, rest') => some (e :: es, rest')
       | Option.none => Option.none)
    | some (e, rest) => some ([e], rest)
end

mutual
/-- Evaluation of the fragment, following Python semantics: names
resolve against the context (a missing name raises `NameError`, which is
not a `KeyError`); `len` applies to sequences and mappings; `*` and the
comparisons are restricted here to integer operands, every other operand
shape raising `TypeError`. -/
def evalP : PExpr → Ctx → Except PErr Val
  | .lit n, _ => Except.ok (.int n)
  | .var s, ctx =>
    (match dget ctx s with
     | some v => Except.ok v
     | Option.none => Except.error PErr.exn)
  | .lenE e, ctx =>
    (match evalP e ctx with
     | Except.ok (.list l) => Except.ok (.int l.length)
     | Except.ok (.str s) => Except.ok (.int s.length)
     | Except.ok (.dict l) => Except.ok (.int l.length)
     | Except.ok (.range a b) => Except.ok (.int (max (b - a) 0))
     | Except.ok _ => Except.error PErr.exn
     | Except.error er => Except.error er)
  | .mul a b, ctx =>
    (match evalP a ctx with
     | Except.error er => Except.error er
     | Except.ok va =>
       match evalP b ctx with
       | Except.error er => Except.error er
       | Except.ok vb =>
         match va, vb with
         | .int m, .int n => Except.ok (.int (m * n))
         | _, _ => Except.error PErr.exn)
  | .cmp isGt a b, ctx =>
    (match evalP a ctx with
     | Except.error er => Except.error er
     | Except.ok va =>
       match evalP b ctx with
       | Except.error er => Except.error er
       | Except.ok vb =>
         match va, vb with
         | .int m, .int n =>
           Except.ok (.bool (if isGt then decide (n < m) else decide (m < n)))
         | _, _ => Except.error PErr.exn)
  | .listE l, ctx =>
    (match evalPList l ctx with
     | Except.ok vs => Except.ok (.list vs)
     | Except.error er => Except.error er)

/-- Left-to-right evaluation of list display elements. -/
def evalPList : List PExpr → Ctx → Except PErr (List Val)
  | [], _ => Except.ok []
  | e :: r, ctx =>
    (match evalP e ctx with
     | Except.error er => Except.error er
     | Except.ok v =>
       match evalPList r ctx with
       | Except.error er => Except.error er
       | Except.ok vs => Except.ok (v :: vs))
end

/-- Host-language evaluation of a whole string of the fragment:
tokenize, parse the full token list, evaluate. Any lexical or syntax
failure is an exception (Python `SyntaxError`). -/
def pyEvalStr (s : String) (ctx : Ctx) : Except PErr Val :=
  match tokenizeF (s.length + 1) s.toList with
  | Option.none => Except.error PErr.exn
  | some toks =>
    match parseCmp (2 * toks.length + 8) toks with
    | some (e, []) => evalP e ctx
    | _ => Except.error PErr.exn

/-- A concrete executor over a given registry whose evaluation oracle is
`pyEvalStr`. The globals flag is irrelevant on this fragment: Python
injects the builtins (hence `len`) into any globals dict lacking
`__builtins__`, and the fragment touches no entry of `safe_globals`. -/
def mkExec (reg : List (String × RegEntry)) : DSLExecutor :=
  ⟨reg, fun _ s ctx => pyEvalStr s ctx⟩

/-- `Message.write_message` from `proj/dsl/dsl_steps.py`: requires
exactly the keyword argument `message` and wraps it in a status dict. -/
def write_message (args : List (String × Val)) : Except String Val :=
  match args with
  | [("message", v)] =>
    Except.ok (.dict [("status", .str "success"), ("message", v)])
  | _ => Except.error "write_message() argument mismatch"

/-- A domain capability for the nested-loop scenario: parses its two
string arguments as integers and returns them as a two-element list.
A capability receiving loop values must parse strings, because
placeholder interpolation stringifies every resolved value (line 344). -/
def make_pair (args : List (String × Val)) : Except String Val :=
  match args with
  | [("x", .str sx), ("y", .str sy)] =>
    (match parseIntLit sx, parseIntLit sy with
     | some nx, some ny => Except.ok (.list [.int nx, .int ny])
     | _, _ => Except.error "invalid literal for int")
  | _ => Except.error "make_pair() argument mismatch"

/-- A demo session registry holding one core and one app capability. -/
def demoRegistry : List (String × RegEntry) :=
  [("message.write_message", ⟨write_message, "core"⟩),
   ("pair.make", ⟨make_pair, "app"⟩)]

/-- The demo executor: demo registry plus the concrete oracle. -/
def demoExec : DSLExecutor := mkExec demoRegistry

/-- The nested-loop plan of spec scenario 6: outer loop over `[1,2]`
bound to `a`, inner loop over `[10,20]` bound to `b`, innermost Action
writing the pair to `pair`. -/
def c4Plan : List Step :=
  [Step.loop "a" "[1, 2]"
    [Step.loop "b" "[10, 20]"
      [Step.action "Write Pair" "pair.make"
        [("x", Arg.str "\x7ba\x7d"), ("y", Arg.str "\x7bb\x7d")]
        (some "pair")]]]

/-- The key list of a dict. -/
def keys {A : Type} (m : List (String × A)) : List String :=
  m.map Prod.fst

/-- Loop body used in the loop-scoping scenario: one Action reading the
loop variable `i` and writing `last`. -/
def c2Body : List Step :=
  [Step.action "msg" "message.write_message"
    [("message", Arg.str "item \x7bi\x7d")] (some "last")]

/-- A follow-up step used to observe that execution continues after a
failing step. -/
def c3Rest : List Step :=
  [Step.action "Send" "message.write_message"
    [("message", Arg.str "ok")] (some "r")]

/-- Body guarded by the condition in the interpolation-order scenario:
one Action writing `flag`. -/
def c10Body : List Step :=
  [Step.action "set flag" "message.write_message"
    [("message", Arg.str "yes")] (some "flag")]

/-- Reading back the key just assigned yields the assigned value. -/
theorem dget_dset_self {A : Type} (m : List (String × A)) (k : String)
    (v : A) : dget (dset m k v) k = some v := by
  induction m with
  | nil => simp [dset, dget]
  | cons p m ih =>
    by_cases hp : p.1 = k
    · simp [dset, dget, hp]
    · simp [dset, dget, hp, ih]

/-- Assignment of one key leaves every other key unchanged. -/
theorem dget_dset_ne {A : Type} (m : List (String × A)) {k k' : String}
    (v : A) (h : k' ≠ k) : dget (dset m k v) k' = dget m k' := by
  induction m with
  | nil => simp [dset, dget, Ne.symm h]
  | cons p m ih =>
    by_cases hp : p.1 = k
    · simp [dset, dget, hp, Ne.symm h, h]
    · by_cases hp' : p.1 = k'
      · simp [dset, dget, hp, hp', h]
      · simp [dset, dget, hp, hp', ih]

/-- Lookup after a single assignment, by cases on the key. -/
theorem dget_dset {A : Type} (m : List (String × A)) (k k' : String)
    (v : A) :
    dget (dset m k v) k' = if k' = k then some v else dget m k' := by
  by_cases h : k' = k
  · subst h; simp [dget_dset_self]
  · simp [h, dget_dset_ne m v h]

/-- Lookup distributes over append, preferring the left list. -/
theorem dget_append {A : Type} (a b : List (String × A)) (k : String) :
    dget (a ++ b) k = (dget a k).or (dget b k) := by
  induction a with
  | nil => simp [dget]
  | cons p a ih =>
    by_cases hp : p.1 = k
    · simp [dget, hp]
    · simp [dget, hp, ih]

/-- Sequential assignment of a registration list: the last registration
of a name wins, and names never registered fall through to the initial
dict. -/
theorem dget_dsetAll {A : Type} (regs : List (String × A)) :
    ∀ (m : List (String × A)) (k : String),
      dget (dsetAll m regs) k = (dget regs.reverse k).or (dget m k) := by
  induction regs with
  | nil => intro m k; simp [dsetAll, dget]
  | cons p rest ih =>
    intro m k
    have hstep : dsetAll m (p :: rest) = dsetAll (dset m p.1 p.2) rest := rfl
    rw [hstep, ih, List.reverse_cons, dget_append, dget_dset]
    by_cases h : k = p.1
    · have h1 : dget ([p] : List (String × A)) k = some p.2 := by
        simp [dget, h.symm]
      rw [h1]
      cases dget rest.reverse k <;> simp [h]
    · have h1 : dget ([p] : List (String × A)) k = Option.none := by
        simp [dget, Ne.symm h]
      rw [h1]
      cases dget rest.reverse k <;> simp [h]

/-- Assignment either keeps the key list (overwrite) or appends the new
key (fresh key). -/
theorem keys_dset {A : Type} (m : List (String × A)) (k : String)
    (v : A) :
    keys (dset m k v) = if k ∈ keys m then keys m else keys m ++ [k] := by
  induction m with
  | nil => simp [dset, keys]
  | cons p m ih =>
    by_cases hp : p.1 = k
    · simp [dset, keys, hp]
    · have hkp : ¬ k = p.1 := fun hh => hp hh.symm
      have e0 : dset (p :: m) k v = p :: dset m k v := by
        simp [dset, hp]
      have e1 : keys (p :: dset m k v) = p.1 :: keys (dset m k v) := rfl
      have e2 : keys (p :: m) = p.1 :: keys m := rfl
      rw [e0, e1, e2, ih]
      by_cases hk : k ∈ keys m
      · simp [hk, hkp]
      · simp [hk, hkp]

/-- Assignment preserves key uniqueness. -/
theorem keys_dset_nodup {A : Type} {m : List (String × A)} (k : String)
    (v : A) (h : (keys m).Nodup) : (keys (dset m k v)).Nodup := by
  rw [keys_dset]
  by_cases hk : k ∈ keys m
  · simpa [hk] using h
  · simp only [hk, if_false]
    rw [List.nodup_append]
    refine ⟨h, List.nodup_singleton k, ?_⟩
    intro a ha hb
    rw [List.mem_singleton] at hb
    subst hb
    exact hk ha

/-- Sequential assignment preserves key uniqueness. -/
theorem keys_dsetAll_nodup {A : Type} (regs : List (String × A)) :
    ∀ {m : List (String × A)}, (keys m).Nodup →
      (keys (dsetAll m regs)).Nodup := by
  induction regs with
  | nil => intro m h; exact h
  | cons p rest ih =>
    intro m h
    exact ih (keys_dset_nodup p.1 p.2 h)

/-- If the scan state sees no placeholder span ahead, scanning emits the
remaining text verbatim (prefixed by the pending open brace when inside
an unterminated span). -/
theorem scanSpans_id (f : String → String) :
    ∀ (l : List Char) (st : Option (List Char)),
      hasSpanAux l (st.map (fun a => !a.isEmpty)) = false →
      scanSpans f l st =
        (match st with
         | Option.none => l
         | some acc => '\x7b' :: acc.reverse ++ l) := by
  intro l
  induction l with
  | nil =>
    intro st _
    cases st with
    | none => rfl
    | some acc => simp [scanSpans]
  | cons c rest ih =>
    intro st h
    cases st with
    | none =>
      by_cases hc : c = '\x7b'
      · have h' : hasSpanAux rest (some false) = false := by
          simpa [hasSpanAux, hc] using h
        have := ih (some []) (by simpa using h')
        simp [scanSpans, hc, this]
      · have h' : hasSpanAux rest Option.none = false := by
          simpa [hasSpanAux, hc] using h
        simp [scanSpans, hc, ih Option.none h']
    | some acc =>
      by_cases hc : c = '\x7d'
      · cases acc with
        | nil =>
          have h' : hasSpanAux rest Option.none = false := by
            simpa [hasSpanAux, hc] using h
          simp [scanSpans, hc, ih Option.none h']
        | cons a as =>
          exfalso
          simp [hasSpanAux, hc] at h
      · have h' : hasSpanAux rest (some true) = false := by
          simpa [hasSpanAux, hc] using h
        have := ih (some (c :: acc)) (by simpa using h')
        simp [scanSpans, hc, this]

/-- Keys other than a present `output_var` are untouched by the Action
branch, whatever the dispatch outcome. -/
theorem executeAction_pres (ex : DSLExecutor) (f : String)
    (args : List (String × Arg)) (out : Option String) (ctx : Ctx)
    (add : Option Ctx) (k : String) (h : ∀ o, out = some o → k ≠ o) :
    dget (executeAction ex f args out ctx add).1 k = dget ctx k := by
  unfold executeAction
  split
  · rfl
  · split
    · rfl
    · cases out with
      | none => rfl
      | some o =>
        simpa using dget_dset_ne ctx _ (h o rfl)

mutual
/-- Keys outside a step's write set are untouched by executing it. -/
theorem execute_step_pres (ex : DSLExecutor) (s : Step) (ctx : Ctx)
    (add : Option Ctx) (k : String) (h : k ∉ step_writes s) :
    dget (execute_step ex s ctx add).1 k = dget ctx k := by
  cases s with
  | action n f args out =>
    simp only [execute_step]
    refine executeAction_pres ex f args out ctx add k ?_
    intro o ho
    subst ho
    simpa [step_writes] using h
  | cond c body =>
    simp only [execute_step]
    exact execute_condition_pres ex (ex.resolve_arguments_str c ctx add)
      body ctx add k (by simpa [step_writes] using h)
  | loop v over body =>
    simp only [execute_step]
    exact execute_loop_pres ex v over body ctx k
      (by simpa [step_writes] using h)
termination_by (sizeOf s, 3, 0)

/-- Keys outside the body's write set are untouched by a loop. -/
theorem execute_loop_pres (ex : DSLExecutor) (v over : String)
    (body : List Step) (ctx : Ctx) (k : String)
    (h : k ∉ steps_writes body) :
    dget (execute_loop ex v over body ctx).1 k = dget ctx k := by
  rw [execute_loop]
  cases ex.loopItems over ctx with
  | none => rfl
  | some items => exact loop_iters_pres ex v items body ctx k h
termination_by (sizeOf body, 2, 0)

/-- Keys outside the body's write set are untouched by the iterations. -/
theorem loop_iters_pres (ex : DSLExecutor) (v : String) (items : List Val)
    (body : List Step) (ctx : Ctx) (k : String)
    (h : k ∉ steps_writes body) :
    dget (loop_iters ex v items body ctx).1 k = dget ctx k := by
  cases items with
  | nil => rw [loop_iters]
  | cons item rest =>
    rw [loop_iters]
    simp only []
    rw [loop_iters_pres ex v rest body _ k h,
      execute_steps_pres ex body ctx (some (dmerge ctx [(v, item)])) k h]
termination_by (sizeOf body, 1, sizeOf items)

/-- Keys outside the body's write set are untouched by a condition. -/
theorem execute_condition_pres (ex : DSLExecutor) (c : String)
    (body : List Step) (ctx : Ctx) (add : Option Ctx) (k : String)
    (h : k ∉ steps_writes body) :
    dget (execute_condition ex c body ctx add).1 k = dget ctx k := by
  rw [execute_condition]
  by_cases hc : ex.resolve_condition c (dmerge ctx (add.getD []))
  · simpa [hc] using execute_steps_pres ex body ctx
      (some (dmerge ctx (add.getD []))) k h
  · simp [hc]
termination_by (sizeOf body, 2, 0)

/-- Keys outside the list's write set are untouched by a step list. -/
theorem execute_steps_pres (ex : DSLExecutor) (l : List Step) (ctx : Ctx)
    (add : Option Ctx) (k : String) (h : k ∉ steps_writes l) :
    dget (execute_steps ex l ctx add).1 k = dget ctx k := by
  cases l with
  | nil => rw [execute_steps]
  | cons s rest =>
    have h1 : k ∉ step_writes s := by
      intro hm
      exact h (by simp [steps_writes, hm])
    have h2 : k ∉ steps_writes rest := by
      intro hm
      exact h (by simp [steps_writes, hm])
    rw [execute_steps]
    simp only []
    rw [execute_steps_pres ex rest _ add k h2,
      execute_step_pres ex s ctx add k h1]
termination_by (sizeOf l, 0, 0)
end

/-- The iteration loop is the left fold that, at each element, runs the
nested steps on the current shared context with the ephemeral overlay
`dmerge acc.1 [(v, item)]` as the additional (read-only) context, and
threads the shared context into the next iteration. -/
theorem loop_iters_eq_foldl (ex : DSLExecutor) (v : String)
    (body : List Step) :
    ∀ (items : List Val) (ctx : Ctx) (t : List Ev),
      ((loop_iters ex v items body ctx).1,
        t ++ (loop_iters ex v items body ctx).2) =
      items.foldl (fun acc item =>
        let p := execute_steps ex body acc.1 (some (dmerge acc.1 [(v, item)]))
        (p.1, acc.2 ++ p.2)) (ctx, t) := by
  intro items
  induction items with
  | nil =>
    intro ctx t
    rw [loop_iters]
    simp
  | cons item rest ih =>
    intro ctx t
    rw [loop_iters]
    simp only [List.foldl_cons]
    rw [← ih]
    simp [List.append_assoc]

/-- C1: For every Action step whose function name is found in the
registry and whose resolved arguments make the registered callable
return a value, the step maps a present `output_var` to exactly the
returned value in the shared Context and adds or changes no other key;
with no (or a falsy) `output_var` the Context is left unchanged. -/
theorem action_success_sets_only_output (ex : DSLExecutor) (n f : String)
    (args : List (String × Arg)) (out : Option String) (ctx : Ctx)
    (add : Option Ctx) (e : RegEntry) (r : Val)
    (hreg : dget ex.step_registry f = some e)
    (hok : e.fn (ex.resolve_arguments args ctx add) = Except.ok r) :
    (∀ o, out = some o →
      dget (execute_step ex (Step.action n f args out) ctx add).1 o = some r ∧
      ∀ k, k ≠ o →
        dget (execute_step ex (Step.action n f args out) ctx add).1 k
          = dget ctx k) ∧
    (out = Option.none →
      (execute_step ex (Step.action n f args out) ctx add).1 = ctx) := by
  have hstep : execute_step ex (Step.action n f args out) ctx add
      = executeAction ex f args out ctx add := by
    simp only [execute_step]
  constructor
  · intro o ho
    subst ho
    rw [hstep]
    unfold executeAction
    simp only [hreg, hok]
    exact ⟨dget_dset_self ctx o r, fun k hk => dget_dset_ne ctx r hk⟩
  · intro ho
    subst ho
    rw [hstep]
    unfold executeAction
    simp only [hreg, hok]

/-- Witness for C1: spec scenario 1 — a `message.write_message` call
with `output_var: r` binds `r` to the returned status dict and leaves
the unrelated key `other` unbound. -/
theorem action_success_sets_only_output_witness :
    dget demoExec.step_registry "message.write_message"
      = some ⟨write_message, "core"⟩ ∧
    write_message (demoExec.resolve_arguments
        [("message", Arg.str "hi")] [] Option.none)
      = Except.ok (Val.dict
          [("status", Val.str "success"), ("message", Val.str "hi")]) ∧
    dget (execute_step demoExec (Step.action "Send" "message.write_message"
        [("message", Arg.str "hi")] (some "r")) [] Option.none).1 "r"
      = some (Val.dict
          [("status", Val.str "success"), ("message", Val.str "hi")]) ∧
    dget (execute_step demoExec (Step.action "Send" "message.write_message"
        [("message", Arg.str "hi")] (some "r")) [] Option.none).1 "other"
      = Option.none := by
  refine ⟨rfl, rfl, ?_, ?_⟩
  · exact ((action_success_sets_only_output demoExec "Send"
      "message.write_message" [("message", Arg.str "hi")] (some "r") []
      Option.none ⟨write_message, "core"⟩ _ rfl rfl).1 "r" rfl).1
  · exact ((action_success_sets_only_output demoExec "Send"
      "message.write_message" [("message", Arg.str "hi")] (some "r") []
      Option.none ⟨write_message, "core"⟩ _ rfl rfl).1 "r" rfl).2
      "other" (by decide)

/-- C3: For every Action step, a registry miss or an exception raised by
the registered callable makes the step a no-op: the Context is
unchanged (the error is only logged), no exception propagates (the step
returns normally), and the following steps run exactly as they would
have from the same Context. -/
theorem action_failure_is_noop (ex : DSLExecutor) (n f : String)
    (args : List (String × Arg)) (out : Option String) (ctx : Ctx)
    (add : Option Ctx) (rest : List Step)
    (h : dget ex.step_registry f = Option.none ∨
      ∃ e msg, dget ex.step_registry f = some e ∧
        e.fn (ex.resolve_arguments args ctx add) = Except.error msg) :
    (execute_step ex (Step.action n f args out) ctx add).1 = ctx ∧
    (execute_steps ex (Step.action n f args out :: rest) ctx add).1 =
      (execute_steps ex rest ctx add).1 := by
  have hstep : execute_step ex (Step.action n f args out) ctx add
      = executeAction ex f args out ctx add := by
    simp only [execute_step]
  have h1 : (executeAction ex f args out ctx add).1 = ctx := by
    unfold executeAction
    rcases h with hmiss | ⟨e, msg, he, herr⟩
    · simp only [hmiss]
    · simp only [he, herr]
  refine ⟨by rw [hstep]; exact h1, ?_⟩
  rw [execute_steps]
  show (execute_steps ex rest
      (execute_step ex (Step.action n f args out) ctx add).1 add).1
    = (execute_steps ex rest ctx add).1
  rw [hstep, h1]

/-- Witness for C3: spec scenario 5 — the unregistered name `foo.bar`
misses the registry, the Context part is unchanged, and the subsequent
step sees the same Context. -/
theorem action_failure_is_noop_witness :
    dget demoExec.step_registry "foo.bar" = Option.none ∧
    (execute_step demoExec (Step.action "Bad" "foo.bar" [] Option.none)
      [] Option.none).1 = [] ∧
    (execute_steps demoExec
        (Step.action "Bad" "foo.bar" [] Option.none :: c3Rest) [] Option.none).1
      = (execute_steps demoExec c3Rest [] Option.none).1 := by
  refine ⟨rfl, ?_, ?_⟩
  · exact (action_failure_is_noop demoExec "Bad" "foo.bar" [] Option.none
      [] Option.none c3Rest (Or.inl rfl)).1
  · exact (action_failure_is_noop demoExec "Bad" "foo.bar" [] Option.none
      [] Option.none c3Rest (Or.inl rfl)).2

/-- C5: A Loop step whose `over` source does not evaluate to a list or
range (evaluation failure included) executes its body zero times: the
step returns the unchanged Context together with only the error log
record, and execution continues with the step after the loop as if the
loop were absent. -/
theorem loop_bad_source_skipped (ex : DSLExecutor) (v over : String)
    (body rest : List Step) (ctx : Ctx) (add : Option Ctx)
    (h : ∀ w, ex.peval false (ex.resolve_placeholders over ctx) ctx
      = Except.ok w → isSeq w = false) :
    execute_step ex (Step.loop v over body) ctx add =
      (ctx, [Ev.err ("Loop variable " ++ v ++
        " cannot iterate over unresolved or invalid value: " ++
        ex.resolve_placeholders over ctx)]) ∧
    (execute_steps ex (Step.loop v over body :: rest) ctx add).1 =
      (execute_steps ex rest ctx add).1 := by
  have hitems : ex.loopItems over ctx = Option.none := by
    unfold DSLExecutor.loopItems
    cases hres : ex.peval false (ex.resolve_placeholders over ctx) ctx with
    | error e => rfl
    | ok w =>
      have hw := h w hres
      cases w with
      | int n => rfl
      | str s => rfl
      | bool b => rfl
      | null => rfl
      | dict l => rfl
      | list l => simp [isSeq] at hw
      | range a b => simp [isSeq] at hw
  have h1 : execute_step ex (Step.loop v over body) ctx add =
      (ctx, [Ev.err ("Loop variable " ++ v ++
        " cannot iterate over unresolved or invalid value: " ++
        ex.resolve_placeholders over ctx)]) := by
    simp only [execute_step]
    rw [execute_loop, hitems]
  refine ⟨h1, ?_⟩
  rw [execute_steps]
  show (execute_steps ex rest
      (execute_step ex (Step.loop v over body) ctx add).1 add).1
    = (execute_steps ex rest ctx add).1
  rw [h1]

/-- Witness for C5: a loop whose source is the literal `5` (an integer,
not a sequence) is skipped with the error logged, and the following
step runs from the unchanged Context. -/
theorem loop_bad_source_skipped_witness :
    (∀ w, demoExec.peval false (demoExec.resolve_placeholders "5" []) []
      = Except.ok w → isSeq w = false) ∧
    execute_step demoExec (Step.loop "i" "5" c2Body) [] Option.none =
      ([], [Ev.err ("Loop variable " ++ "i" ++
        " cannot iterate over unresolved or invalid value: " ++
        demoExec.resolve_placeholders "5" [])]) ∧
    (execute_steps demoExec (Step.loop "i" "5" c2Body :: c3Rest)
        [] Option.none).1
      = (execute_steps demoExec c3Rest [] Option.none).1 := by
  have h : ∀ w, demoExec.peval false (demoExec.resolve_placeholders "5" []) []
      = Except.ok w → isSeq w = false := by
    intro w hw
    have h5 : demoExec.peval false (demoExec.resolve_placeholders "5" []) []
        = Except.ok (Val.int 5) := rfl
    rw [h5] at hw
    cases hw
    rfl
  refine ⟨h, ?_, ?_⟩
  · exact (loop_bad_source_skipped demoExec "i" "5" c2Body c3Rest []
      Option.none h).1
  · exact (loop_bad_source_skipped demoExec "i" "5" c2Body c3Rest []
      Option.none h).2

/-- C6: A Condition step whose (interpolated) condition evaluates to a
falsy value or fails to evaluate — `resolve_condition` returns `false`
in both cases — executes none of its nested steps and leaves the
Context unchanged. -/
theorem condition_false_is_noop (ex : DSLExecutor) (c : String)
    (body : List Step) (ctx : Ctx) (add : Option Ctx)
    (h : ex.resolve_condition (ex.resolve_arguments_str c ctx add)
      (dmerge ctx (add.getD [])) = false) :
    execute_step ex (Step.cond c body) ctx add = (ctx, []) := by
  simp only [execute_step]
  rw [execute_condition]
  simp [h]

/-- Witness for C6: spec scenario 3 — the condition `1 > 2` is false,
so the guarded Action never runs and the Context stays empty. -/
theorem condition_false_is_noop_witness :
    demoExec.resolve_condition
      (demoExec.resolve_arguments_str "1 > 2" [] Option.none)
      (dmerge [] ((Option.none : Option Ctx).getD [])) = false ∧
    execute_step demoExec (Step.cond "1 > 2" c10Body) [] Option.none
      = ([], []) := by
  refine ⟨rfl, ?_⟩
  exact condition_false_is_noop demoExec "1 > 2" c10Body [] Option.none rfl

/-- C7: A session registry built from the core registrations followed by
the app registrations holds every qualified name at most once, and
looking a name up returns exactly the value of the last registration of
that name in the overall registration order (so a later registration —
for example an app one after a core one — overwrites an earlier one). -/
theorem registry_unique_last_wins (core app : List (String × RegEntry))
    (k : String) :
    (keys (register_steps core app)).Nodup ∧
    dget (register_steps core app) k = dget (core ++ app).reverse k := by
  constructor
  · exact keys_dsetAll_nodup app (keys_dsetAll_nodup core (by simp [keys]))
  · unfold register_steps
    rw [dget_dsetAll, dget_dsetAll]
    have h0 : dget ([] : List (String × RegEntry)) k = Option.none := rfl
    rw [h0, List.reverse_append, dget_append]
    cases dget app.reverse k <;> cases dget core.reverse k <;> simp

/-- C8: Resolving the placeholder `\x7blen(x) * 2\x7d` against a Context
binding `x` to the list `[1, 2, 3]` yields the literal text `"6"`: the
length builtin is available inside placeholder expressions. -/
theorem placeholder_len_doubles :
    (mkExec []).resolve_placeholders "\x7blen(x) * 2\x7d"
      [("x", Val.list [Val.int 1, Val.int 2, Val.int 3])] = "6" := rfl

/-- C9: Placeholder interpolation is the identity on any text containing
no `\x7b...\x7d` span, whatever the evaluation oracle and the Context; the
string case of argument resolution therefore also returns such a string
unchanged. -/
theorem interpolation_identity_without_spans (ex : DSLExecutor)
    (s : String) (ctx : Ctx) (h : hasSpan s = false) :
    ex.resolve_placeholders s ctx = s ∧
    resolveValue ex ctx (Arg.str s) = Val.str s := by
  have h1 : ex.resolve_placeholders s ctx = s := by
    unfold DSLExecutor.resolve_placeholders
    rw [scanSpans_id (resolveMatch ex ctx) s.toList Option.none
      (by simpa [hasSpan] using h)]
    cases s
    rfl
  refine ⟨h1, ?_⟩
  unfold resolveValue
  by_cases hb : strHas s '\x7b' && strHas s '\x7d'
  · simp [hb, h1]
  · simp [hb]

/-- Witness for C9: the span-free string `hello world` interpolates to
itself under the concrete executor and an arbitrary Context. -/
theorem interpolation_identity_without_spans_witness :
    hasSpan "hello world" = false ∧
    (mkExec []).resolve_placeholders "hello world" [("x", Val.int 1)]
      = "hello world" ∧
    resolveValue (mkExec []) [("x", Val.int 1)] (Arg.str "hello world")
      = Val.str "hello world" := by
  refine ⟨rfl, ?_, ?_⟩
  · exact (interpolation_identity_without_spans (mkExec []) "hello world"
      [("x", Val.int 1)] rfl).1
  · exact (interpolation_identity_without_spans (mkExec []) "hello world"
      [("x", Val.int 1)] rfl).2

/-- C10: A Condition step first interpolates every placeholder span of
the condition string against the merged scope and only then evaluates
the resulting text as one expression. Concretely, `\x7bx\x7d > 2` with `x`
bound to the string `"3"` interpolates to the text `3 > 2`, which
evaluates to true — whereas evaluating `x > 2` directly on the
value of `x` fails (and so would gate to false); the guarded step
therefore runs on the textual substitution, as the end-to-end execution
in the last conjunct shows. -/
theorem condition_interpolated_then_evaluated :
    (∀ (ex : DSLExecutor) (c : String) (body : List Step) (ctx : Ctx)
      (add : Option Ctx),
      execute_step ex (Step.cond c body) ctx add =
        if ex.resolve_condition
            (ex.resolve_placeholders c (dmerge ctx (add.getD [])))
            (dmerge ctx (add.getD [])) then
          execute_steps ex body ctx (some (dmerge ctx (add.getD [])))
        else (ctx, [])) ∧
    (mkExec []).resolve_placeholders "\x7bx\x7d > 2" [("x", Val.str "3")]
      = "3 > 2" ∧
    (mkExec []).resolve_condition "3 > 2" [("x", Val.str "3")] = true ∧
    (mkExec []).resolve_condition "x > 2" [("x", Val.str "3")] = false ∧
    dget (execute_step demoExec (Step.cond "\x7bx\x7d > 2" c10Body)
        [("x", Val.str "3")] Option.none).1 "flag"
      = some (Val.dict
          [("status", Val.str "success"), ("message", Val.str "yes")]) := by
  have hshape : ∀ (ex : DSLExecutor) (c : String) (body : List Step)
      (ctx : Ctx) (add : Option Ctx),
      execute_step ex (Step.cond c body) ctx add =
        if ex.resolve_condition
            (ex.resolve_placeholders c (dmerge ctx (add.getD [])))
            (dmerge ctx (add.getD [])) then
          execute_steps ex body ctx (some (dmerge ctx (add.getD [])))
        else (ctx, []) := by
    intro ex c body ctx add
    simp only [execute_step]
    rw [execute_condition]
    rfl
  refine ⟨hshape, rfl, rfl, rfl, ?_⟩
  rw [hshape]
  have hc : demoExec.resolve_condition
      (demoExec.resolve_placeholders "\x7bx\x7d > 2"
        (dmerge [("x", Val.str "3")] ((Option.none : Option Ctx).getD [])))
      (dmerge [("x", Val.str "3")] ((Option.none : Option Ctx).getD []))
      = true := rfl
  rw [hc]
  have hact : executeAction demoExec "message.write_message"
      [("message", Arg.str "yes")] (some "flag") [("x", Val.str "3")]
      (some (dmerge [("x", Val.str "3")]
        ((Option.none : Option Ctx).getD [])))
      = ([("x", Val.str "3"),
          ("flag", Val.dict
            [("status", Val.str "success"), ("message", Val.str "yes")])],
         [Ev.invoke "message.write_message"]) := rfl
  simp only [if_true, c10Body, execute_steps, execute_step, hact]
  rfl

/-- C2: Executing a Loop step whose source yields `items` is exactly the
fold that, for every element in order, runs the nested steps with the
current shared Context as the write target and with the ephemeral
overlay `dmerge acc.1 [(v, item)]` — the shared Context plus the loop
variable — passed only as the additional (read) context of that
iteration; Context changes made by nested Actions thread into the next
iteration and survive the loop, while the loop variable itself (when no
nested Action uses it as an `output_var`) is never written to the shared
Context and does not persist after the loop. -/
theorem loop_variable_scoped_writes_shared (ex : DSLExecutor)
    (v over : String) (body : List Step) (ctx : Ctx) (add : Option Ctx)
    (items : List Val)
    (hitems : ex.loopItems over ctx = some items)
    (hv : v ∉ steps_writes body) :
    execute_step ex (Step.loop v over body) ctx add =
      items.foldl (fun acc item =>
        let p := execute_steps ex body acc.1
          (some (dmerge acc.1 [(v, item)]))
        (p.1, acc.2 ++ p.2)) (ctx, ([] : List Ev)) ∧
    dget (execute_step ex (Step.loop v over body) ctx add).1 v
      = dget ctx v := by
  have hstep : execute_step ex (Step.loop v over body) ctx add
      = execute_loop ex v over body ctx := by
    simp only [execute_step]
  constructor
  · rw [hstep, execute_loop, hitems]
    have := loop_iters_eq_foldl ex v body items ctx []
    simpa using this
  · exact execute_step_pres ex (Step.loop v over body) ctx add v
      (by simpa [step_writes] using hv)

/-- Witness for C2: a loop over `[1, 2]` bound to `i` whose body writes
`last`; the loop variable `i` is not a write target and is unbound after
the loop. -/
theorem loop_variable_scoped_writes_shared_witness :
    demoExec.loopItems "[1, 2]" [] = some [Val.int 1, Val.int 2] ∧
    "i" ∉ steps_writes c2Body ∧
    dget (execute_step demoExec (Step.loop "i" "[1, 2]" c2Body)
        [] Option.none).1 "i" = Option.none := by
  have hv : "i" ∉ steps_writes c2Body := by decide
  exact ⟨rfl, hv, (loop_variable_scoped_writes_shared demoExec "i" "[1, 2]"
    c2Body [] Option.none [Val.int 1, Val.int 2] rfl hv).2⟩

/-- C4: evaluation of the nested-loop scenario of the spec (outer loop
over `[1, 2]` bound to `a`, inner loop over `[10, 20]` bound to `b`,
innermost Action writing the pair to `pair`). The claimed final value
`Context["pair"] == [2, 20]` is NOT produced: `_execute_step` drops
`additional_context` when it recurses into a loop (line 115) and
`_execute_loop` rebuilds each iteration scope from `self.dsl_context`
alone (line 56), so the outer binding of `a` is invisible inside the
inner loop body, `\x7ba\x7d` resolves to the inline error token (second
conjunct), every `pair.make` call fails, and `pair` is never bound
(first conjunct); the trace records the four failed dispatches (third
conjunct). -/
theorem nested_loop_outer_binding_lost :
    dget (execute_task demoExec c4Plan []).1 "pair" = Option.none ∧
    resolveValue demoExec (dmerge [] [("b", Val.int 10)])
      (Arg.str "\x7ba\x7d") = Val.str "<Error resolving a>" ∧
    (execute_task demoExec c4Plan []).2 =
      [Ev.invoke "pair.make", Ev.err "Error executing function pair.make",
       Ev.invoke "pair.make", Ev.err "Error executing function pair.make",
       Ev.invoke "pair.make", Ev.err "Error executing function pair.make",
       Ev.invoke "pair.make", Ev.err "Error executing function pair.make"] := by
  have La : demoExec.loopItems "[1, 2]" [] = some [Val.int 1, Val.int 2] :=
    rfl
  have Lb : demoExec.loopItems "[10, 20]" []
      = some [Val.int 10, Val.int 20] := rfl
  have A10 : executeAction demoExec "pair.make"
      [("x", Arg.str "\x7ba\x7d"), ("y", Arg.str "\x7bb\x7d")] (some "pair") []
      (some (dmerge [] [("b", Val.int 10)]))
      = ([], [Ev.invoke "pair.make",
          Ev.err "Error executing function pair.make"]) := rfl
  have A20 : executeAction demoExec "pair.make"
      [("x", Arg.str "\x7ba\x7d"), ("y", Arg.str "\x7bb\x7d")] (some "pair") []
      (some (dmerge [] [("b", Val.int 20)]))
      = ([], [Ev.invoke "pair.make",
          Ev.err "Error executing function pair.make"]) := rfl
  have hrun : execute_task demoExec c4Plan []
      = ([], [Ev.invoke "pair.make",
          Ev.err "Error executing function pair.make",
          Ev.invoke "pair.make", Ev.err "Error executing function pair.make",
          Ev.invoke "pair.make", Ev.err "Error executing function pair.make",
          Ev.invoke "pair.make",
          Ev.err "Error executing function pair.make"]) := by
    simp only [execute_task, c4Plan, execute_steps, execute_step,
      execute_loop, loop_iters, La, Lb, A10, A20]
    simp
  exact ⟨by rw [hrun]; rfl, rfl, by rw [hrun]⟩
